import Mathlib

/-!
Verification of the generated wrpc `Hello` stub
(`examples/go/hello-client/bindings/wrpc_examples/hello/handler/bindings.wrpc.go`).

The Go function `Hello` invokes a remote operation and decodes a single
string result from the incoming byte stream: a little-endian base-128
varint length (at most 5 bytes, accumulated into a `uint32`), then a
single `Read` into a buffer of that length, then UTF-8 validation.

Machine integers are modelled as `Nat` with explicit `% 2 ^ 32` where the
Go code computes in `uint32`. Go strings are byte sequences, modelled as
`List Nat`. The reader interface (`io.ByteReader` + `io.Reader`) is
modelled as a structure of state-passing functions; Go's `Read` returns
`(n, err)` and overwrites a prefix of the buffer, but the generated code
discards `n` (`_, err = r.Read(buf)`), so the observable effect of a call
is the buffer contents after the call together with the optional error.
-/

namespace WrpcHello

/-- Errors of the Go I/O layer: `io.EOF`, `io.ErrUnexpectedEOF`, or any
other error value. -/
inductive GoErr : Type
  | eof
  | unexpectedEOF
  | other (msg : List Nat)
deriving DecidableEq, Repr

/-- The error cases of the string-decoding closure inside `Hello`:
`failed to read string length byte: %w`, `string length overflows a
32-bit integer`, `failed to read string bytes: %w`, `string is not valid
UTF-8`. -/
inductive DecodeErr : Type
  | readLenByte (e : GoErr)
  | lenOverflow
  | readBody (e : GoErr)
  | invalidUtf8
deriving DecidableEq, Repr

/-- The error cases `Hello` itself returns: `failed to invoke hello: %w`
or `failed to read result 0: %w`. -/
inductive HelloErr : Type
  | invokeFailed (e : GoErr)
  | readResult (e : DecodeErr)
deriving DecidableEq, Repr

/-- Model of the incoming stream interface `io.ByteReader` + `io.Reader`
over an abstract stream state `σ`. `readByte` yields one byte or an
error. `read buf st` models `r.Read(buf)`: it returns the buffer
contents after the call together with the optional error (the byte count
`n` is discarded by the generated code, so it is not part of the model's
observable result). -/
structure ByteReader (σ : Type) where
  readByte : σ → Except GoErr Nat × σ
  read : List Nat → σ → (List Nat × Option GoErr) × σ

/-- Whether a byte is a UTF-8 continuation byte (`0x80`–`0xbf`). -/
def utf8Cont (b : Nat) : Bool := 0x80 ≤ b && b ≤ 0xbf

/-- Modelled from the spec: UTF-8 validity of a byte sequence, as checked
by Go's `unicode/utf8.Valid` (RFC 3629: no overlong forms, no surrogate
code points, maximum code point `U+10FFFF`); the standard-library
validator is an external collaborator of the repository. -/
def utf8Valid : List Nat → Bool
  | [] => true
  | b :: rest =>
    if b ≤ 0x7f then utf8Valid rest
    else if 0xc2 ≤ b && b ≤ 0xdf then
      match rest with
      | c1 :: r => utf8Cont c1 && utf8Valid r
      | [] => false
    else if b = 0xe0 then
      match rest with
      | c1 :: c2 :: r => (0xa0 ≤ c1 && c1 ≤ 0xbf) && utf8Cont c2 && utf8Valid r
      | _ => false
    else if (0xe1 ≤ b && b ≤ 0xec) || b = 0xee || b = 0xef then
      match rest with
      | c1 :: c2 :: r => utf8Cont c1 && utf8Cont c2 && utf8Valid r
      | _ => false
    else if b = 0xed then
      match rest with
      | c1 :: c2 :: r => (0x80 ≤ c1 && c1 ≤ 0x9f) && utf8Cont c2 && utf8Valid r
      | _ => false
    else if b = 0xf0 then
      match rest with
      | c1 :: c2 :: c3 :: r =>
        (0x90 ≤ c1 && c1 ≤ 0xbf) && utf8Cont c2 && utf8Cont c3 && utf8Valid r
      | _ => false
    else if 0xf1 ≤ b && b ≤ 0xf3 then
      match rest with
      | c1 :: c2 :: c3 :: r => utf8Cont c1 && utf8Cont c2 && utf8Cont c3 && utf8Valid r
      | _ => false
    else if b = 0xf4 then
      match rest with
      | c1 :: c2 :: c3 :: r =>
        (0x80 ≤ c1 && c1 ≤ 0x8f) && utf8Cont c2 && utf8Cont c3 && utf8Valid r
      | _ => false
    else false

/-- The varint length loop of `Hello` (`for i := 0; i < 5; i++`, source
lines 36–63), parameterized by the result `post` of the branch after the
loop (line 64, reached only when all `fuel` iterations are spent).
`fuel` is the number of remaining iterations (`5 - i` at the top-level
call), `i` the Go loop counter, `x` the `uint32` accumulator, `s` the
bit shift. On a read error at `i > 0`, `io.EOF` is reclassified as
`io.ErrUnexpectedEOF` before wrapping; at `s = 28` a byte above `0x0f`
fails with the overflow error; a byte below `0x80` terminates with
`x | uint32(b) << s`; otherwise `x |= uint32(b & 0x7f) << s` and the
shift advances by 7. -/
def lenLoopAux (rd : ByteReader σ) (post : Except DecodeErr Nat) :
    Nat → Nat → Nat → Nat → σ → Except DecodeErr Nat × σ
  | 0, _, _, _, st => (post, st)
  | fuel + 1, i, x, s, st =>
    match rd.readByte st with
    | (.error e, st') =>
      (.error (.readLenByte (if 0 < i ∧ e = GoErr.eof then GoErr.unexpectedEOF else e)), st')
    | (.ok b, st') =>
      if s = 28 ∧ 0x0f < b then (.error .lenOverflow, st')
      else if b < 0x80 then (.ok (x ||| ((b <<< s) % 2 ^ 32)), st')
      else lenLoopAux rd post fuel (i + 1) (x ||| (((b &&& 0x7f) <<< s) % 2 ^ 32)) (s + 7) st'

/-- The varint length decode exactly as `Hello` runs it: 5 iterations
starting from `i = 0`, `x = 0`, `s = 0`, with the after-loop branch
returning the overflow error. -/
def lenLoop (rd : ByteReader σ) (st : σ) : Except DecodeErr Nat × σ :=
  lenLoopAux rd (.error .lenOverflow) 5 0 0 0 st

/-- The string-decoding closure of `Hello` (source lines 30–65): decode
the varint length `x`, allocate `make([]byte, x)` (zero-filled), perform
one `Read` into it discarding the byte count, then validate UTF-8. On a
read error the empty string is returned with the wrapped error; on
invalid UTF-8 the raw buffer reinterpreted as a string is returned
alongside the error. -/
def readString (rd : ByteReader σ) (st : σ) : (List Nat × Option DecodeErr) × σ :=
  match lenLoop rd st with
  | (.error e, st') => (([], some e), st')
  | (.ok x, st') =>
    match rd.read (List.replicate x 0) st' with
    | ((_, some e), st'') => (([], some (.readBody e)), st'')
    | ((buf, none), st'') =>
      if utf8Valid buf then ((buf, none), st'') else ((buf, some .invalidUtf8), st'')

/-- Observable lifecycle events of one invocation session: closing the
outgoing parameter stream (`w__.Close()`) and closing the incoming
result stream (`r__.Close()`, deferred). -/
inductive Ev : Type
  | closedOutgoing
  | closedIncoming
deriving DecidableEq, Repr, BEq

/-- Model of the collaborators of one `Hello` call: `wrpc__.Invoke`
either fails or yields the initial state of the incoming stream; the
stream is read through `rd`; the two `Close` calls may mutate the state
and report an error. -/
structure Session (σ : Type) where
  invoke : Except GoErr σ
  rd : ByteReader σ
  closeOutgoing : σ → Option GoErr × σ
  closeIncoming : σ → Option GoErr × σ

/-- The function `Hello` (source lines 14–70). If `Invoke` fails, the
wrapped failure is returned at once and no stream is touched. Otherwise
the outgoing stream is closed (its error only logged), the result string
is decoded, and the deferred close of the incoming stream runs on the
way out of every path (its error only logged). A decode failure is
wrapped as `failed to read result 0` while the named return `r0__` keeps
whatever string the closure produced. The result carries the final
stream state and the trace of close events. -/
def hello (sess : Session σ) : (List Nat × Option HelloErr) × (Option σ × List Ev) :=
  match sess.invoke with
  | .error e => (([], some (.invokeFailed e)), (none, []))
  | .ok st0 =>
    let st1 := (sess.closeOutgoing st0).2
    let res := readString sess.rd st1
    let st3 := (sess.closeIncoming res.2).2
    match res.1.2 with
    | some e =>
      ((res.1.1, some (.readResult e)), (some st3, [Ev.closedOutgoing, Ev.closedIncoming]))
    | none => ((res.1.1, none), (some st3, [Ev.closedOutgoing, Ev.closedIncoming]))

/-- A well-behaved stream over a byte list: `readByte` yields the head
or `io.EOF`; `read` fills the whole buffer or fails with `io.EOF` — the
fill-or-fail read primitive the generated code assumes of its stream. -/
def listReader : ByteReader (List Nat) where
  readByte st :=
    match st with
    | [] => (.error .eof, [])
    | b :: rest => (.ok b, rest)
  read buf st :=
    if buf.length ≤ st.length then ((st.take buf.length, none), st.drop buf.length)
    else ((buf, some .eof), st)

/-- A conforming `io.Reader` over a byte list that returns however many
bytes it has with a nil error — a short read, which the `io.Reader`
contract permits; the rest of the buffer keeps its previous (zero)
contents. -/
def shortReadReader : ByteReader (List Nat) where
  readByte := listReader.readByte
  read buf st :=
    let n := min buf.length st.length
    ((st.take n ++ buf.drop n, none), st.drop n)

/-- Modelled from the spec: the little-endian base-128 varint encoder of
the wire format (low 7 bits of each byte are payload, bit 7 signals
continuation, least-significant group first); the repository contains
only the decoder. -/
def encodeVarint (n : Nat) : List Nat :=
  if h : n < 0x80 then [n] else (n % 0x80 + 0x80) :: encodeVarint (n / 0x80)
decreasing_by exact Nat.div_lt_self (by omega) (by omega)

/-- A session whose invocation succeeds and whose incoming stream holds
the byte list `l`, with silent, stateless closes. -/
def sampleSession (l : List Nat) : Session (List Nat) where
  invoke := .ok l
  rd := listReader
  closeOutgoing st := (none, st)
  closeIncoming st := (none, st)

/-! ## Helper lemmas -/

/-- Unfolding lemma for one iteration of the varint loop, usable at any
positive fuel value. -/
theorem lenLoopAux_pos {σ : Type} (fuel : Nat) (h : fuel ≠ 0) (rd : ByteReader σ)
    (post : Except DecodeErr Nat) (i x s : Nat) (st : σ) :
    lenLoopAux rd post fuel i x s st =
      match rd.readByte st with
      | (.error e, st') =>
        (.error (.readLenByte (if 0 < i ∧ e = GoErr.eof then GoErr.unexpectedEOF else e)), st')
      | (.ok b, st') =>
        if s = 28 ∧ 0x0f < b then (.error .lenOverflow, st')
        else if b < 0x80 then (.ok (x ||| ((b <<< s) % 2 ^ 32)), st')
        else
          lenLoopAux rd post (fuel - 1) (i + 1) (x ||| (((b &&& 0x7f) <<< s) % 2 ^ 32)) (s + 7)
            st' := by
  cases fuel with
  | zero => exact absurd rfl h
  | succ n => rfl

/-- Reading a byte from `listReader` on a nonempty stream yields the head. -/
theorem listReader_readByte_cons (b : Nat) (rest : List Nat) :
    listReader.readByte (b :: rest) = (.ok b, rest) := rfl

/-- Reading a byte from `listReader` on the exhausted stream fails with `io.EOF`. -/
theorem listReader_readByte_nil : listReader.readByte [] = (.error .eof, []) := rfl

/-- Bitwise-or of a value below `2 ^ s` with a multiple of `2 ^ s` is
their sum: the two operands occupy disjoint bit ranges. -/
theorem lor_mul_pow (a b s : Nat) (h : a < 2 ^ s) : a ||| b * 2 ^ s = a + b * 2 ^ s := by
  have hor := Nat.mul_add_lt_is_or h b
  rw [Nat.lor_comm, Nat.mul_comm b (2 ^ s), ← hor]
  ring

/-- Masking with `0x7f` is reduction modulo `0x80`. -/
theorem land_7f (b : Nat) : b &&& 0x7f = b % 0x80 := by
  have h : (0x7f : Nat) = 2 ^ 7 - 1 := rfl
  rw [h, Nat.and_pow_two_sub_one_eq_mod]

/-! ## Claim theorems -/

/-- C7: for a stream whose next byte is `0x00`, the string decoder of
`Hello` succeeds, consuming exactly one byte for the length (the rest of
the stream is untouched) and returning the empty string with no
error. -/
theorem hello_zero_length_decodes_empty (rest : List Nat) :
    readString listReader (0x00 :: rest) = (([], none), rest) := by
  have hlen : lenLoop listReader (0x00 :: rest) = (.ok 0, rest) := rfl
  have hread : listReader.read (List.replicate 0 0) rest = (([], none), rest) := by
    simp [listReader]
  unfold readString
  simp only [hlen, hread]
  rfl

/-- C10: the length decoder accepts non-minimal varint encodings: the
two-byte sequence `0x80 0x00` and the one-byte sequence `0x00` are
distinct inputs that both decode successfully to length 0, so decoding
is not injective. -/
theorem hello_nonminimal_varint_accepted :
    lenLoop listReader [0x80, 0x00] = (.ok 0, []) ∧
    lenLoop listReader [0x00] = (.ok 0, []) ∧
    ([0x80, 0x00] : List Nat) ≠ [0x00] :=
  ⟨rfl, rfl, by decide⟩

/-- C2 counterexample: with a stream holding only 2 of the 5 declared
body bytes, a conforming reader that returns those 2 bytes with a nil
error (a short read, which `io.Reader` permits) does NOT make the decode
fail: the generated code discards the byte count of `Read`, so the
decode succeeds with the zero-padded buffer, contradicting the claim
that a read returning fewer bytes than requested causes a
`failed to read string bytes` failure. -/
theorem hello_short_read_not_detected :
    (shortReadReader.read (List.replicate 5 0) [104, 101]).1 = ([104, 101, 0, 0, 0], none) ∧
    readString shortReadReader [0x05, 104, 101] = (([104, 101, 0, 0, 0], none), []) :=
  ⟨rfl, rfl⟩

/-- C2 (amended): in the body read of `Hello`, a `Read` call that
reports an error makes the decode fail with the wrapped
`failed to read string bytes` error; no partial-read accumulation loop
is performed (the single `Read` outcome decides the result). A short
read reported without an error is not detected. -/
theorem hello_body_read_error_fails {σ : Type} (rd : ByteReader σ) (st st1 st2 : σ)
    (x : Nat) (buf : List Nat) (e : GoErr)
    (hlen : lenLoop rd st = (.ok x, st1))
    (hread : rd.read (List.replicate x 0) st1 = ((buf, some e), st2)) :
    readString rd st = (([], some (.readBody e)), st2) := by
  unfold readString
  simp only [hlen, hread]

/-- Witness for C2's amended theorem: a fill-or-fail reader over the
truncated stream `[0x05, 104, 101]` fails the body read with `io.EOF`,
and the decode fails with the wrapped body-read error. -/
theorem hello_body_read_error_fails_witness :
    readString listReader [0x05, 104, 101] = (([], some (.readBody .eof)), [104, 101]) :=
  hello_body_read_error_fails listReader [0x05, 104, 101] [104, 101] [104, 101] 5
    (List.replicate 5 0) .eof rfl rfl

/-- C5: whenever the body read fills the buffer without error but the
buffer is not valid UTF-8, the string decoder of `Hello` fails with the
`string is not valid UTF-8` error and still returns the raw byte
sequence reinterpreted as a string alongside the failure. -/
theorem hello_invalid_utf8_returns_raw {σ : Type} (rd : ByteReader σ) (st st1 st2 : σ)
    (x : Nat) (buf : List Nat)
    (hlen : lenLoop rd st = (.ok x, st1))
    (hread : rd.read (List.replicate x 0) st1 = ((buf, none), st2))
    (hval : utf8Valid buf = false) :
    readString rd st = ((buf, some .invalidUtf8), st2) := by
  unfold readString
  simp only [hlen, hread, hval]
  simp

/-- Witness for C5: the stream `[0x01, 0x80]` declares a 1-byte body
holding the lone continuation byte `0x80`; validation fails and the raw
byte is returned alongside the error. -/
theorem hello_invalid_utf8_returns_raw_witness :
    readString listReader [0x01, 0x80] = (([0x80], some .invalidUtf8), []) :=
  hello_invalid_utf8_returns_raw listReader [0x01, 0x80] [0x80] [] 1 [0x80] rfl rfl rfl

/-- C3: on any stream whose first four varint bytes all carry the
continuation bit (so the shift reaches 28), a fifth byte above `0x0f`
makes the length decode fail with the
`string length overflows a 32-bit integer` error — whether or not that
fifth byte's own continuation bit is set. -/
theorem hello_fifth_byte_overflow (b1 b2 b3 b4 b5 : Nat) (rest : List Nat)
    (h1 : 0x80 ≤ b1) (h2 : 0x80 ≤ b2) (h3 : 0x80 ≤ b3) (h4 : 0x80 ≤ b4)
    (h5 : 0x0f < b5) :
    lenLoop listReader (b1 :: b2 :: b3 :: b4 :: b5 :: rest) = (.error .lenOverflow, rest) := by
  rw [lenLoop]
  rw [lenLoopAux_pos 5 (by decide)]
  simp only [listReader, Nat.not_lt.mpr h1]
  norm_num
  rw [lenLoopAux_pos 4 (by decide)]
  simp only [listReader, Nat.not_lt.mpr h2]
  norm_num
  rw [lenLoopAux_pos 3 (by decide)]
  simp only [listReader, Nat.not_lt.mpr h3]
  norm_num
  rw [lenLoopAux_pos 2 (by decide)]
  simp only [listReader, Nat.not_lt.mpr h4]
  norm_num
  rw [lenLoopAux_pos 1 (by decide)]
  simp only [listReader]
  simp [h5]

/-- Witness for C3: four continuation bytes `0x80` followed by `0x10`
(continuation bit clear) overflow, leaving the rest of the stream. -/
theorem hello_fifth_byte_overflow_witness :
    lenLoop listReader [0x80, 0x80, 0x80, 0x80, 0x10, 42] = (.error .lenOverflow, [42]) :=
  hello_fifth_byte_overflow 0x80 0x80 0x80 0x80 0x10 [42]
    (by decide) (by decide) (by decide) (by decide) (by decide)

/-- If the stream holds only continuation bytes and runs out while at
most 4 of them have been consumed, the loop hits the read failure and —
when at least one byte was consumed (`0 < i + l.length` at entry `i`) —
reclassifies `io.EOF` as `io.ErrUnexpectedEOF`. -/
theorem lenLoopAux_cont_truncated (post : Except DecodeErr Nat) :
    ∀ (l : List Nat) (i x s : Nat), (∀ b ∈ l, 0x80 ≤ b) → i + l.length ≤ 4 → s = 7 * i →
      lenLoopAux listReader post (5 - i) i x s l =
        (.error (.readLenByte
          (if 0 < i + l.length then GoErr.unexpectedEOF else GoErr.eof)), []) := by
  intro l
  induction l with
  | nil =>
    intro i x s hb hi hs
    rw [lenLoopAux_pos (5 - i) (by omega)]
    simp only [listReader_readByte_nil]
    by_cases h0 : 0 < i <;> simp [h0]
  | cons b l ih =>
    intro i x s hb hi hs
    rw [lenLoopAux_pos (5 - i) (by omega)]
    have hbb : ¬b < 0x80 := Nat.not_lt.mpr (hb b (by simp))
    have hg : ¬(s = 28 ∧ 0x0f < b) := by
      rintro ⟨rfl, _⟩
      simp at hi
      omega
    simp only [listReader_readByte_cons, if_neg hg, if_neg hbb]
    have hfuel : 5 - i - 1 = 5 - (i + 1) := by omega
    rw [hfuel, ih (i + 1) _ (s + 7) (fun b' hb' => hb b' (by simp [hb'])) (by simp at hi ⊢; omega)
      (by omega)]
    simp

/-- C4: a byte-read failure on the very first iteration of the varint
loop is surfaced as the underlying failure wrapped as
`failed to read string length byte` (an `io.EOF` there stays `io.EOF`),
while a stream of 1 to 4 continuation bytes that then ends has its
end-of-stream reclassified as `io.ErrUnexpectedEOF` before wrapping —
in particular a stream ending after byte 2 of an intended 3-byte
sequence fails with truncation, not a silent short length. -/
theorem hello_eof_reclassified :
    (∀ (σ : Type) (rd : ByteReader σ) (st st' : σ) (e : GoErr),
        rd.readByte st = (.error e, st') →
        lenLoop rd st = (.error (.readLenByte e), st')) ∧
    (∀ l : List Nat, l ≠ [] → l.length ≤ 4 → (∀ b ∈ l, 0x80 ≤ b) →
        lenLoop listReader l = (.error (.readLenByte GoErr.unexpectedEOF), [])) := by
  constructor
  · intro σ rd st st' e h
    rw [lenLoop, lenLoopAux_pos 5 (by decide)]
    simp [h]
  · intro l hne hlen hb
    have h := lenLoopAux_cont_truncated (.error .lenOverflow) l 0 0 0 hb (by omega) rfl
    have hpos : 0 < 0 + l.length := by
      cases l with
      | nil => exact absurd rfl hne
      | cons a t => simp
    rw [if_pos hpos] at h
    simpa [lenLoop] using h

/-- Witness for C4: the empty stream fails at iteration 0 with plain
`io.EOF`; the stream `[0x80, 0x80]` (two continuation bytes, then end)
fails with the reclassified `io.ErrUnexpectedEOF`. -/
theorem hello_eof_reclassified_witness :
    lenLoop listReader ([] : List Nat) = (.error (.readLenByte GoErr.eof), []) ∧
    lenLoop listReader [0x80, 0x80] = (.error (.readLenByte GoErr.unexpectedEOF), []) :=
  ⟨hello_eof_reclassified.1 (List Nat) listReader [] [] GoErr.eof rfl,
   hello_eof_reclassified.2 [0x80, 0x80] (by decide) (by decide) (by decide)⟩

/-- Starting from shift `s` with `fuel` iterations left such that
`s + 7 * fuel = 35`, the loop's result does not depend on the value of
the after-loop branch: at the last iteration the shift is 28, where
every byte either errors, trips the overflow guard, or terminates. -/
theorem lenLoopAux_post_irrelevant {σ : Type} (rd : ByteReader σ)
    (post post' : Except DecodeErr Nat) :
    ∀ (fuel i x s : Nat) (st : σ), 1 ≤ fuel → s + 7 * fuel = 35 →
      lenLoopAux rd post fuel i x s st = lenLoopAux rd post' fuel i x s st := by
  intro fuel
  induction fuel with
  | zero => intro i x s st h1 _; exact absurd h1 (by decide)
  | succ fuel ih =>
    intro i x s st _ h2
    rw [lenLoopAux_pos (fuel + 1) (by omega), lenLoopAux_pos (fuel + 1) (by omega)]
    cases hrb : rd.readByte st with
    | mk b? st' =>
      cases b? with
      | error e => rfl
      | ok b =>
        by_cases hg : s = 28 ∧ 0x0f < b
        · simp [hg]
        · simp only [if_neg hg]
          by_cases hb : b < 0x80
          · simp [hb]
          · simp only [if_neg hb, Nat.add_sub_cancel]
            have hs : s ≠ 28 := fun h => hg ⟨h, by omega⟩
            exact ih (i + 1) _ (s + 7) st' (by omega) (by omega)

/-- For the list-backed stream, one call to the varint loop consumes at
most `fuel` bytes. -/
theorem lenLoopAux_consumes_le (post : Except DecodeErr Nat) :
    ∀ (fuel i x s : Nat) (l : List Nat),
      l.length ≤ (lenLoopAux listReader post fuel i x s l).2.length + fuel := by
  intro fuel
  induction fuel with
  | zero => intro i x s l; simp [lenLoopAux]
  | succ fuel ih =>
    intro i x s l
    rw [lenLoopAux_pos (fuel + 1) (by omega)]
    cases l with
    | nil => simp [listReader_readByte_nil]
    | cons b rest =>
      simp only [listReader_readByte_cons]
      by_cases hg : s = 28 ∧ 0x0f < b
      · simp [hg]
      · simp only [if_neg hg]
        by_cases hb : b < 0x80
        · simp [hb]
        · simp only [if_neg hb, Nat.add_sub_cancel]
          have := ih (i + 1) (x ||| (((b &&& 0x7f) <<< s) % 2 ^ 32)) (s + 7) rest
          simp only [List.length_cons]
          omega

/-- C9: the varint loop of `Hello` settles within its 5 iterations: the
result is independent of the value of the after-loop overflow branch
(that branch is unreachable from the initial state `i = 0`, `s = 0`),
and on a list-backed stream no input makes the loop consume more than 5
bytes for one length. -/
theorem hello_varint_loop_bounded :
    (∀ (σ : Type) (rd : ByteReader σ) (post : Except DecodeErr Nat) (st : σ),
        lenLoopAux rd post 5 0 0 0 st = lenLoop rd st) ∧
    (∀ l : List Nat, l.length ≤ (lenLoop listReader l).2.length + 5) := by
  constructor
  · intro σ rd post st
    exact lenLoopAux_post_irrelevant rd post (.error .lenOverflow) 5 0 0 0 st
      (by decide) (by decide)
  · intro l
    exact lenLoopAux_consumes_le (.error .lenOverflow) 5 0 0 0 l

/-- Loop invariant for decoding an encoded value: with `fuel` iterations
left, shift `s` such that `s + 7 * fuel = 35`, an accumulator holding
only bits below `s`, and a remaining value `v` fitting in the remaining
`32 - s` bits, the loop consumes exactly the encoding of `v` and
produces `acc + v * 2 ^ s`. -/
theorem lenLoopAux_decodes_encode (post : Except DecodeErr Nat) :
    ∀ (fuel v acc s i : Nat) (rest : List Nat),
      1 ≤ fuel → s + 7 * fuel = 35 → acc < 2 ^ s → v < 2 ^ (32 - s) →
      lenLoopAux listReader post fuel i acc s (encodeVarint v ++ rest) =
        (.ok (acc + v * 2 ^ s), rest) := by
  intro fuel
  induction fuel with
  | zero => intro v acc s i rest h1 _ _ _; exact absurd h1 (by decide)
  | succ fuel ih =>
    intro v acc s i rest _ h2 hacc hv
    have hs28 : s ≤ 28 := by omega
    rw [encodeVarint]
    by_cases hv128 : v < 0x80
    · rw [dif_pos hv128]
      rw [lenLoopAux_pos (fuel + 1) (by omega)]
      simp only [List.cons_append, List.nil_append, listReader_readByte_cons]
      have hg : ¬(s = 28 ∧ 0x0f < v) := by
        rintro ⟨rfl, h15⟩
        norm_num at hv
        omega
      rw [if_neg hg, if_pos hv128]
      have hvs : v <<< s % 2 ^ 32 = v * 2 ^ s := by
        rw [Nat.shiftLeft_eq]
        apply Nat.mod_eq_of_lt
        calc v * 2 ^ s < 2 ^ (32 - s) * 2 ^ s :=
              Nat.mul_lt_mul_of_lt_of_le hv (Nat.le_refl _) (Nat.two_pow_pos s)
          _ = 2 ^ 32 := by rw [← pow_add]; congr 1; omega
      rw [hvs, lor_mul_pow acc v s hacc]
    · rw [dif_neg hv128]
      rw [lenLoopAux_pos (fuel + 1) (by omega)]
      simp only [List.cons_append, listReader_readByte_cons]
      have hg : ¬(s = 28 ∧ 0x0f < v % 0x80 + 0x80) := by
        rintro ⟨rfl, _⟩
        norm_num at hv
        omega
      have hbge : ¬(v % 0x80 + 0x80 < 0x80) := by omega
      rw [if_neg hg, if_neg hbge]
      have hsne : s ≠ 28 := fun h => hg ⟨h, by omega⟩
      have hs21 : s ≤ 21 := by omega
      have hland : v % 0x80 + 0x80 &&& 0x7f = v % 0x80 := by
        rw [land_7f]
        omega
      rw [hland]
      have hsm : (v % 0x80) <<< s % 2 ^ 32 = v % 0x80 * 2 ^ s := by
        rw [Nat.shiftLeft_eq]
        apply Nat.mod_eq_of_lt
        calc v % 0x80 * 2 ^ s < 0x80 * 2 ^ s :=
              Nat.mul_lt_mul_of_lt_of_le (Nat.mod_lt _ (by norm_num)) (Nat.le_refl _)
                (Nat.two_pow_pos s)
          _ = 2 ^ (s + 7) := by rw [pow_add]; ring
          _ < 2 ^ 32 := Nat.pow_lt_pow_right (by norm_num) (by omega)
      rw [hsm, lor_mul_pow acc (v % 0x80) s hacc, Nat.add_sub_cancel]
      have hmul : v % 0x80 * 2 ^ s ≤ 127 * 2 ^ s :=
        Nat.mul_le_mul_right _ (by omega)
      have hacc' : acc + v % 0x80 * 2 ^ s < 2 ^ (s + 7) := by
        have hp : (2 : Nat) ^ (s + 7) = 128 * 2 ^ s := by rw [pow_add]; ring
        omega
      have hv' : v / 0x80 < 2 ^ (32 - (s + 7)) := by
        rw [Nat.div_lt_iff_lt_mul (by norm_num : (0 : Nat) < 0x80)]
        have he : 32 - (s + 7) + 7 = 32 - s := by omega
        calc v < 2 ^ (32 - s) := hv
          _ = 2 ^ (32 - (s + 7)) * 0x80 := by
              rw [show (0x80 : Nat) = 2 ^ 7 from rfl, ← pow_add, he]
      rw [ih (v / 0x80) (acc + v % 0x80 * 2 ^ s) (s + 7) (i + 1) rest (by omega) (by omega)
        hacc' hv']
      have hsum : acc + v % 0x80 * 2 ^ s + v / 0x80 * 2 ^ (s + 7) = acc + v * 2 ^ s := by
        have hp : (2 : Nat) ^ (s + 7) = 2 ^ s * 128 := by rw [pow_add]; ring
        rw [hp, show v / 0x80 * (2 ^ s * 128) = v / 0x80 * 128 * 2 ^ s by ring,
          Nat.add_assoc, ← Nat.add_mul]
        have hmd : v % 0x80 + v / 0x80 * 128 = v := Nat.mod_add_div' v 0x80
        rw [hmd]
      rw [hsum]

/-- The varint encoder never produces the empty byte sequence. -/
theorem encodeVarint_ne_nil (v : Nat) : encodeVarint v ≠ [] := by
  rw [encodeVarint]
  split <;> simp

/-- Values below `2 ^ (7 * k + 7)` encode in at most `k + 1` bytes. -/
theorem encodeVarint_length_le : ∀ (k v : Nat), v < 2 ^ (7 * k + 7) →
    (encodeVarint v).length ≤ k + 1 := by
  intro k
  induction k with
  | zero =>
    intro v hv
    norm_num at hv
    rw [encodeVarint, dif_pos (by omega : v < 0x80)]
    simp
  | succ k ih =>
    intro v hv
    rw [encodeVarint]
    by_cases hv128 : v < 0x80
    · rw [dif_pos hv128]; simp
    · rw [dif_neg hv128]
      have hlt : v / 0x80 < 2 ^ (7 * k + 7) := by
        rw [Nat.div_lt_iff_lt_mul (by norm_num : (0 : Nat) < 0x80)]
        calc v < 2 ^ (7 * (k + 1) + 7) := hv
          _ = 2 ^ (7 * k + 7) * 0x80 := by
              rw [show (0x80 : Nat) = 2 ^ 7 from rfl, ← pow_add]
              congr 1
      have := ih (v / 0x80) hlt
      simp only [List.length_cons]
      omega

/-- C1: for every `x` in `[0, 2 ^ 32 - 1]`, the length loop of `Hello`
decodes the little-endian base-128 varint encoding of `x` (1–5 bytes)
back to exactly `x`, consuming exactly the encoded bytes and leaving the
rest of the stream. -/
theorem hello_varint_roundtrip (x : Nat) (hx : x < 2 ^ 32) (rest : List Nat) :
    lenLoop listReader (encodeVarint x ++ rest) = (.ok x, rest) ∧
    1 ≤ (encodeVarint x).length ∧ (encodeVarint x).length ≤ 5 := by
  refine ⟨?_, ?_, ?_⟩
  · have h := lenLoopAux_decodes_encode (.error .lenOverflow) 5 x 0 0 0 rest
      (by decide) (by decide) (by norm_num) (by simpa using hx)
    simpa [lenLoop] using h
  · exact List.length_pos.mpr (encodeVarint_ne_nil x)
  · exact encodeVarint_length_le 4 x (by calc x < 2 ^ 32 := hx
      _ ≤ 2 ^ (7 * 4 + 7) := Nat.pow_le_pow_right (by norm_num) (by norm_num))

/-- Witness for C1: `300` encodes as `[0xac, 0x02]` and decodes back to
`300`, consuming both bytes and leaving the trailing stream intact. -/
theorem hello_varint_roundtrip_witness :
    lenLoop listReader (encodeVarint 300 ++ [9, 9]) = (.ok 300, [9, 9]) ∧
    1 ≤ (encodeVarint 300).length ∧ (encodeVarint 300).length ≤ 5 :=
  hello_varint_roundtrip 300 (by norm_num) [9, 9]

/-- On every failure of the string-decoding closure other than UTF-8
validation, the returned string is empty. -/
theorem readString_error_empty {σ : Type} (rd : ByteReader σ) (st : σ) (d : DecodeErr)
    (hd : (readString rd st).1.2 = some d) (hne : d ≠ DecodeErr.invalidUtf8) :
    (readString rd st).1.1 = [] := by
  unfold readString at hd ⊢
  cases hlen : lenLoop rd st with
  | mk r st' =>
    cases r with
    | error e => simp [hlen]
    | ok x =>
      simp only [hlen] at hd ⊢
      cases hread : rd.read (List.replicate x 0) st' with
      | mk br st'' =>
        rcases br with ⟨buf, oe⟩
        cases oe with
        | some e => simp [hread]
        | none =>
          simp only [hread] at hd ⊢
          by_cases hval : utf8Valid buf
          · simp [hval] at hd
          · simp [hval] at hd
            exact absurd hd.symm hne

/-- C6 counterexample: on the UTF-8 validation failure path, `Hello`
does NOT return a zero-value string: for the result stream
`[0x01, 0x80]` it returns the raw byte `0x80` as the string together
with the wrapped error, contradicting the claim that every failure path
yields the empty string. -/
theorem hello_utf8_failure_keeps_raw_string :
    hello (sampleSession [0x01, 0x80]) =
      (([0x80], some (.readResult .invalidUtf8)),
        (some [], [Ev.closedOutgoing, Ev.closedIncoming])) ∧
    ([0x80] : List Nat) ≠ ([] : List Nat) :=
  ⟨rfl, by decide⟩

/-- C6 (amended): on success (`Hello` reports no error) the invocation
succeeded and `Hello` returns exactly the string the decoding closure
produced, which carried no decode error — the decoded string with a nil
error; on every failure path except UTF-8 validation `Hello` returns
the zero-value (empty) string together with the wrapped error; when the
closure fails UTF-8 validation with raw buffer `buf`, `Hello` returns
`buf` reinterpreted as a string together with the wrapped error. -/
theorem hello_return_paths {σ : Type} (sess : Session σ) :
    ((hello sess).1.2 = none →
      ∃ st0, sess.invoke = .ok st0 ∧
        (hello sess).1.1 = (readString sess.rd (sess.closeOutgoing st0).2).1.1 ∧
        (readString sess.rd (sess.closeOutgoing st0).2).1.2 = none) ∧
    (∀ e : HelloErr, (hello sess).1.2 = some e →
      e ≠ HelloErr.readResult DecodeErr.invalidUtf8 → (hello sess).1.1 = []) ∧
    (∀ (st0 : σ) (buf : List Nat) (st2 : σ), sess.invoke = .ok st0 →
      readString sess.rd (sess.closeOutgoing st0).2 = ((buf, some DecodeErr.invalidUtf8), st2) →
      (hello sess).1 = (buf, some (HelloErr.readResult DecodeErr.invalidUtf8))) := by
  cases hi : sess.invoke with
  | error e0 =>
    refine ⟨?_, ?_, ?_⟩
    · intro h
      unfold hello at h
      simp [hi] at h
    · intro e he hne
      unfold hello
      simp [hi]
    · intro st0 buf st2 h0 hr
      simp at h0
  | ok st0' =>
    refine ⟨?_, ?_, ?_⟩
    · intro h
      unfold hello at h ⊢
      simp only [hi] at h ⊢
      cases hd : (readString sess.rd (sess.closeOutgoing st0').2).1.2 with
      | none => exact ⟨st0', rfl, by simp [hd], hd⟩
      | some d => simp [hd] at h
    · intro e he hne
      unfold hello at he ⊢
      simp only [hi] at he ⊢
      cases hd : (readString sess.rd (sess.closeOutgoing st0').2).1.2 with
      | none => simp [hd] at he
      | some d =>
        simp only [hd] at he ⊢
        simp only [Option.some_inj] at he
        have hdne : d ≠ DecodeErr.invalidUtf8 := by
          intro h
          exact hne (by rw [← he, h])
        exact readString_error_empty sess.rd (sess.closeOutgoing st0').2 d hd hdne
    · intro st0 buf st2 h0 hr
      injection h0 with h0
      subst h0
      unfold hello
      simp only [hi, hr]

/-- Witness for C6's amended theorem, applying each clause at a
concrete session: on stream `[0x00]` the call succeeds and returns the
decoder's (empty) string with no decode error; on the empty stream the
decode fails before UTF-8 validation and the returned string is empty;
on stream `[0x01, 0x80]` UTF-8 validation fails and `Hello` returns the
raw byte `0x80` with the wrapped error. -/
theorem hello_return_paths_witness :
    (∃ st0, (sampleSession [0x00]).invoke = .ok st0 ∧
        (hello (sampleSession [0x00])).1.1 =
          (readString (sampleSession [0x00]).rd
            ((sampleSession [0x00]).closeOutgoing st0).2).1.1 ∧
        (readString (sampleSession [0x00]).rd
          ((sampleSession [0x00]).closeOutgoing st0).2).1.2 = none) ∧
    ((hello (sampleSession ([] : List Nat))).1.1 = []) ∧
    ((hello (sampleSession [0x01, 0x80])).1 =
      ([0x80], some (HelloErr.readResult DecodeErr.invalidUtf8))) :=
  ⟨(hello_return_paths (sampleSession [0x00])).1 rfl,
   (hello_return_paths (sampleSession [])).2.1
     (HelloErr.readResult (DecodeErr.readLenByte GoErr.eof)) rfl (by decide),
   (hello_return_paths (sampleSession [0x01, 0x80])).2.2 [0x01, 0x80] [0x80] [] rfl rfl⟩

/-- C8: whenever `Invoke` succeeds, the incoming stream is closed
exactly once on every exit path (the event trace records exactly one
incoming-stream close whether decoding succeeded or failed), and the
behaviour of the deferred close — including a failing close — has no
effect on the string and error `Hello` returns. -/
theorem hello_closes_incoming_once {σ : Type} (sess : Session σ) (st0 : σ)
    (hinv : sess.invoke = .ok st0) :
    ((hello sess).2.2.count Ev.closedIncoming = 1) ∧
    (∀ g : σ → Option GoErr × σ,
      (hello { sess with closeIncoming := g }).1 = (hello sess).1) := by
  constructor
  · unfold hello
    rw [hinv]
    cases hd : (readString sess.rd (sess.closeOutgoing st0).2).1.2 <;> simp [hd] <;> rfl
  · intro g
    unfold hello
    rw [hinv]
    simp only []
    cases hd : (readString sess.rd (sess.closeOutgoing st0).2).1.2 <;> simp [hd]

/-- Witness for C8: a concrete session over the stream `[0x00]`; the
trace holds one incoming-stream close, and replacing the close by one
that fails with `io.EOF` leaves the returned string and error
unchanged. -/
theorem hello_closes_incoming_once_witness :
    ((hello (sampleSession [0x00])).2.2.count Ev.closedIncoming = 1) ∧
    ((hello { sampleSession [0x00] with
        closeIncoming := fun st => (some GoErr.eof, st) }).1 =
      (hello (sampleSession [0x00])).1) :=
  ⟨(hello_closes_incoming_once (sampleSession [0x00]) [0x00] rfl).1,
   (hello_closes_incoming_once (sampleSession [0x00]) [0x00] rfl).2
     (fun st => (some GoErr.eof, st))⟩

end WrpcHello
